import Mathlib

/-!
# Verification of the `arrange` music-arrangement editor

A shallow embedding of the interval-timeline model and the audio-to-bar
synchronisation logic of the `arrange` application, together with proofs
about its documented properties.

Conventions used throughout:

* JavaScript numbers are modelled as rationals (`ℚ`); bar indices, times in
  seconds and BPM values are all plain JS numbers in the source.
* React `useState` updater functions are modelled as pure functions
  `ArrangementData → ArrangementData`. Every mutation callback in `App.tsx`
  is `useCallback(..., [])`, so the `calculateRequiredBars()` those handlers
  invoke is the one created on the first render, and it reads the first
  render's `arrangementData` (the `useState` initial value) forever; the
  composition is modelled accordingly, as `calculateRequiredBarsStale`
  applied to the `initialArrangement` snapshot, which makes the
  recalculation a no-op at every one of these call sites.
* `uuidv4()` results are taken as parameters (`newId`).
* `Array.prototype.sort` with an ascending comparator is a stable sort,
  so it is modelled by `List.insertionSort`, which is also stable.
-/

namespace Arrange

/-- `src/types.ts` `Activity`: `{ id, startBar, endBar, variation? }`.
The optional `variation` field is `none` when absent. -/
structure Activity where
  id : String
  startBar : ℚ
  endBar : ℚ
  variation : Option ℚ := none
deriving DecidableEq

/-- `src/types.ts` `Instrument`: `{ id, name, color, activities }`. -/
structure Instrument where
  id : String
  name : String
  color : String
  activities : List Activity
deriving DecidableEq

/-- `src/types.ts` `Section`: `{ id, name, startBar, endBar }`. -/
structure Section where
  id : String
  name : String
  startBar : ℚ
  endBar : ℚ
deriving DecidableEq

/-- `src/types.ts` `ArrangementData`: `{ name, totalBars, sections, instruments }`. -/
structure ArrangementData where
  name : String
  totalBars : ℚ
  sections : List Section
  instruments : List Instrument
deriving DecidableEq

/-- The comparator `(a, b) => a.startBar - b.startBar` used on sections in
`App.tsx`, as the ordering relation it sorts by. -/
def sectionStartLE (a b : Section) : Prop :=
  a.startBar ≤ b.startBar

instance : DecidableRel sectionStartLE :=
  fun a b => inferInstanceAs (Decidable (a.startBar ≤ b.startBar))

instance : IsTotal Section sectionStartLE :=
  ⟨fun a b => le_total a.startBar b.startBar⟩

instance : IsTrans Section sectionStartLE :=
  ⟨fun _ _ _ h1 h2 => le_trans h1 h2⟩

/-- `variation !== undefined ? variation : activity.variation`. -/
def mergeVariation (variation old : Option ℚ) : Option ℚ :=
  match variation with
  | some v => some v
  | none => old

/-- The body of the `map` in `App.tsx` `updateActivity`: replace the bars of
the activity with the given id, keeping its `variation` unless a new one is
supplied. -/
def updateActivities (activities : List Activity) (activityId : String)
    (startBar endBar : ℚ) (variation : Option ℚ) : List Activity :=
  activities.map fun a =>
    if a.id = activityId then
      { a with
        startBar := startBar
        endBar := endBar
        variation := mergeVariation variation a.variation }
    else a

/-- `App.tsx` `calculateRequiredBars` (lines 184–206), the scan part:
maximum `endBar` used by any section or activity, starting from `0`. -/
def maxUsedBar (a : ArrangementData) : ℚ :=
  let m := a.sections.foldl (fun m s => max m s.endBar) 0
  a.instruments.foldl
    (fun m inst => inst.activities.foldl (fun m2 act => max m2 act.endBar) m) m

/-- `const requiredBars = Math.max(64, maxUsedBar + 4)` in
`calculateRequiredBars`. -/
def requiredBars (a : ArrangementData) : ℚ :=
  max 64 (maxUsedBar a + 4)

/-- The body of `App.tsx` `calculateRequiredBars` (lines 184–206) as a
function of the state it reads: update `totalBars` if needed, but only ever
increase, never decrease. (This is what the recalculation computes on a
given state; `calculateRequiredBarsStale` below captures which state the
frozen call sites actually hand it.) -/
def calculateRequiredBars (a : ArrangementData) : ArrangementData :=
  if requiredBars a > a.totalBars then { a with totalBars := requiredBars a } else a

/-- The first render's `arrangementData`: the `useState` initial value in
`App.tsx` (lines 14–19). The localStorage restore runs in a `useEffect`
after the first render, so the frozen closures below never observe it. -/
def initialArrangement : ArrangementData :=
  { name := "New Arrangement", totalBars := 64, sections := [], instruments := [] }

/-- `calculateRequiredBars()` as the mutation callbacks actually run it:
they are all `useCallback(..., [])`, so the closure they call was created on
the first render and reads the stale `snapshot` — the first render's state —
for both the scan and the guard, while `updateTotalBars`'s functional
update, were the guard ever to fire, would apply to the state the preceding
mutation produced. -/
def calculateRequiredBarsStale (snapshot current : ArrangementData) : ArrangementData :=
  if requiredBars snapshot > snapshot.totalBars
  then { current with totalBars := requiredBars snapshot } else current

/-- On the snapshot the callbacks are frozen to, the guard compares
`max(64, 0 + 4) = 64 > 64` and never fires: the recalculation is a no-op. -/
lemma calculateRequiredBarsStale_initial (current : ArrangementData) :
    calculateRequiredBarsStale initialArrangement current = current := by
  have hng : ¬ requiredBars initialArrangement > initialArrangement.totalBars := by
    norm_num [requiredBars, maxUsedBar, initialArrangement]
  unfold calculateRequiredBarsStale
  rw [if_neg hng]

/-- Under either closure semantics the recalculation touches only
`totalBars`, never `sections`. -/
lemma sections_calculateRequiredBarsStale (snapshot current : ArrangementData) :
    (calculateRequiredBarsStale snapshot current).sections = current.sections := by
  unfold calculateRequiredBarsStale
  split <;> rfl

/-- The state update inside `App.tsx` `addActivity` (lines 70–88): append a
new `{ id, startBar, endBar }` activity to the instrument with the given id. -/
def addActivityState (instrumentId newId : String) (startBar endBar : ℚ)
    (prev : ArrangementData) : ArrangementData :=
  { prev with
    instruments := prev.instruments.map fun inst =>
      if inst.id = instrumentId then
        { inst with
          activities := inst.activities ++
            [{ id := newId, startBar := startBar, endBar := endBar }] }
      else inst }

/-- `App.tsx` `addActivity`: the state update followed by the frozen
`calculateRequiredBars()` call, which reads the `initialArrangement`
snapshot. -/
def addActivity (instrumentId newId : String) (startBar endBar : ℚ)
    (prev : ArrangementData) : ArrangementData :=
  calculateRequiredBarsStale initialArrangement
    (addActivityState instrumentId newId startBar endBar prev)

/-- The state update inside `App.tsx` `updateActivity` (lines 90–122). -/
def updateActivityState (instrumentId activityId : String) (startBar endBar : ℚ)
    (variation : Option ℚ) (prev : ArrangementData) : ArrangementData :=
  { prev with
    instruments := prev.instruments.map fun inst =>
      if inst.id = instrumentId then
        { inst with
          activities := updateActivities inst.activities activityId startBar endBar variation }
      else inst }

/-- `App.tsx` `updateActivity`: the frozen `calculateRequiredBars()` runs
only when `variation === undefined` (bar positions actually changed). -/
def updateActivity (instrumentId activityId : String) (startBar endBar : ℚ)
    (variation : Option ℚ) (prev : ArrangementData) : ArrangementData :=
  match variation with
  | none => calculateRequiredBarsStale initialArrangement
      (updateActivityState instrumentId activityId startBar endBar none prev)
  | some v => updateActivityState instrumentId activityId startBar endBar (some v) prev

/-- `App.tsx` `deleteActivity` (lines 124–136): filter the activity out of the
instrument with the given id; no bar recalculation. -/
def deleteActivity (instrumentId activityId : String)
    (prev : ArrangementData) : ArrangementData :=
  { prev with
    instruments := prev.instruments.map fun inst =>
      if inst.id = instrumentId then
        { inst with activities := inst.activities.filter fun a => a.id ≠ activityId }
      else inst }

/-- The state update inside `App.tsx` `addSection` (lines 138–149): append
the new section and re-sort by `startBar`. -/
def addSectionState (newId name : String) (startBar endBar : ℚ)
    (prev : ArrangementData) : ArrangementData :=
  { prev with
    sections := (prev.sections ++
      [({ id := newId, name := name, startBar := startBar, endBar := endBar } : Section)]).insertionSort
        sectionStartLE }

/-- `App.tsx` `addSection`: the state update followed by the frozen
`calculateRequiredBars()` call. -/
def addSection (newId name : String) (startBar endBar : ℚ)
    (prev : ArrangementData) : ArrangementData :=
  calculateRequiredBarsStale initialArrangement
    (addSectionState newId name startBar endBar prev)

/-- `Partial<Omit<Section, 'id'>>`: the optional fields accepted by
`updateSection`. -/
structure SectionUpdates where
  name : Option String := none
  startBar : Option ℚ := none
  endBar : Option ℚ := none
deriving DecidableEq

/-- The object spread `{ ...section, ...updates }`. -/
def applySectionUpdates (s : Section) (u : SectionUpdates) : Section :=
  { s with
    name := u.name.getD s.name
    startBar := u.startBar.getD s.startBar
    endBar := u.endBar.getD s.endBar }

/-- The state update inside `App.tsx` `updateSection` (lines 151–166): apply
the partial update to the section with the given id and re-sort by `startBar`. -/
def updateSectionState (sectionId : String) (u : SectionUpdates)
    (prev : ArrangementData) : ArrangementData :=
  { prev with
    sections := (prev.sections.map fun s =>
      if s.id = sectionId then applySectionUpdates s u else s).insertionSort
        sectionStartLE }

/-- `App.tsx` `updateSection`: the state update followed by the frozen
`calculateRequiredBars()` call. -/
def updateSection (sectionId : String) (u : SectionUpdates)
    (prev : ArrangementData) : ArrangementData :=
  calculateRequiredBarsStale initialArrangement
    (updateSectionState sectionId u prev)

/-- `App.tsx` `deleteSection` (lines 168–173): filter the section out; no
re-sort and no bar recalculation. -/
def deleteSection (sectionId : String) (prev : ArrangementData) : ArrangementData :=
  { prev with sections := prev.sections.filter fun s => s.id ≠ sectionId }

/-- The section/activity mutations exposed by `App.tsx` (interval operations;
`updateTotalBars` from the footer and instrument management are not interval
mutations). -/
inductive Op
  | addSection (newId name : String) (startBar endBar : ℚ)
  | updateSection (sectionId : String) (u : SectionUpdates)
  | deleteSection (sectionId : String)
  | addActivity (instrumentId newId : String) (startBar endBar : ℚ)
  | updateActivity (instrumentId activityId : String) (startBar endBar : ℚ)
      (variation : Option ℚ)
  | deleteActivity (instrumentId activityId : String)

/-- Interpretation of an interval operation as the corresponding `App.tsx`
handler. -/
def Op.apply : Op → ArrangementData → ArrangementData
  | .addSection nid nm s e, a => Arrange.addSection nid nm s e a
  | .updateSection sid u, a => Arrange.updateSection sid u a
  | .deleteSection sid, a => Arrange.deleteSection sid a
  | .addActivity iid nid s e, a => Arrange.addActivity iid nid s e a
  | .updateActivity iid aid s e v, a => Arrange.updateActivity iid aid s e v a
  | .deleteActivity iid aid, a => Arrange.deleteActivity iid aid a

/-- Running a sequence of interval operations left to right. -/
def applyOps (ops : List Op) (a : ArrangementData) : ArrangementData :=
  ops.foldl (fun st op => op.apply st) a

/-- The sections invariant: ascending `startBar` order. -/
def SortedByStart (l : List Section) : Prop :=
  l.Pairwise sectionStartLE

lemma op_totalBars_eq (op : Op) (a : ArrangementData) :
    (op.apply a).totalBars = a.totalBars := by
  cases op with
  | addSection nid nm s e =>
      show (calculateRequiredBarsStale initialArrangement
        (addSectionState nid nm s e a)).totalBars = a.totalBars
      rw [calculateRequiredBarsStale_initial]
      rfl
  | updateSection sid u =>
      show (calculateRequiredBarsStale initialArrangement
        (updateSectionState sid u a)).totalBars = a.totalBars
      rw [calculateRequiredBarsStale_initial]
      rfl
  | deleteSection sid => rfl
  | addActivity iid nid s e =>
      show (calculateRequiredBarsStale initialArrangement
        (addActivityState iid nid s e a)).totalBars = a.totalBars
      rw [calculateRequiredBarsStale_initial]
      rfl
  | updateActivity iid aid s e v =>
      cases v with
      | none =>
          show (calculateRequiredBarsStale initialArrangement
            (updateActivityState iid aid s e none a)).totalBars = a.totalBars
          rw [calculateRequiredBarsStale_initial]
          rfl
      | some v => rfl
  | deleteActivity iid aid => rfl

lemma applyOps_totalBars_eq (ops : List Op) (a : ArrangementData) :
    (applyOps ops a).totalBars = a.totalBars := by
  induction ops generalizing a with
  | nil => rfl
  | cons op rest ih =>
      have h1 : applyOps (op :: rest) a = applyOps rest (op.apply a) := rfl
      rw [h1, ih, op_totalBars_eq]

/-- A one-instrument arrangement at the default 64-bar canvas. -/
def instBass : Instrument :=
  { id := "i1", name := "bass", color := "#4285F4", activities := [] }

def base64 : ArrangementData :=
  { name := "New Arrangement", totalBars := 64, sections := [], instruments := [instBass] }

def idI1 : String := "i1"

def idA1 : String := "a1"

def idS1 : String := "s1"

/-- C3, evaluated at the failing input: the claim demands that adding an
Activity `[70,75]` at `totalBars = 64` raise `totalBars` to `requiredBars =
max(64, 75 + 4) = 79`, and the recalculation applied to the state it was
meant to read would indeed give 79 — but every mutation callback runs the
frozen first-render `calculateRequiredBars`, whose guard never fires, so no
interval operation ever changes `totalBars`: the add leaves it at 64, and so
does the subsequent delete. -/
theorem totalBars_growth_bug :
    (∀ (ops : List Op) (a : ArrangementData),
        (applyOps ops a).totalBars = a.totalBars) ∧
    (addActivity idI1 idA1 70 75 base64).totalBars = 64 ∧
    (deleteActivity idI1 idA1 (addActivity idI1 idA1 70 75 base64)).totalBars = 64 ∧
    (calculateRequiredBars (addActivityState idI1 idA1 70 75 base64)).totalBars = 79 := by
  have h1 : (addActivity idI1 idA1 70 75 base64).totalBars = 64 := by
    show (calculateRequiredBarsStale initialArrangement
      (addActivityState idI1 idA1 70 75 base64)).totalBars = 64
    rw [calculateRequiredBarsStale_initial]
    rfl
  refine ⟨applyOps_totalBars_eq, h1, ?_, ?_⟩
  · calc (deleteActivity idI1 idA1 (addActivity idI1 idA1 70 75 base64)).totalBars
        = (addActivity idI1 idA1 70 75 base64).totalBars := rfl
      _ = 64 := h1
  · norm_num [calculateRequiredBars, addActivityState, requiredBars,
      maxUsedBar, base64, instBass, idI1, idA1]

def actW : Activity :=
  { id := "a1", startBar := 70, endBar := 75 }

def instW : Instrument :=
  { id := "i1", name := "bass", color := "#4285F4", activities := [actW] }

def arrW : ArrangementData :=
  { name := "New Arrangement", totalBars := 64, sections := [], instruments := [instW] }

/-- C10: `deleteActivity` changes only the activities list of the instrument
with the matching id (removing the activity with the given id), leaving the
arrangement name, `totalBars`, all sections, every other instrument, and the
target instrument's id, name and color unchanged; `deleteSection` changes
only the sections list, leaving name, `totalBars` and all instruments
unchanged. -/
theorem delete_frame_conditions (a : ArrangementData) (iid aid sid : String) :
    ((deleteActivity iid aid a).name = a.name ∧
     (deleteActivity iid aid a).totalBars = a.totalBars ∧
     (deleteActivity iid aid a).sections = a.sections ∧
     List.Forall₂ (fun inst inst2 =>
        (inst.id ≠ iid → inst2 = inst) ∧
        (inst.id = iid → inst2.id = inst.id ∧ inst2.name = inst.name ∧
           inst2.color = inst.color ∧
           inst2.activities = inst.activities.filter fun x => x.id ≠ aid))
       a.instruments (deleteActivity iid aid a).instruments) ∧
    ((deleteSection sid a).name = a.name ∧
     (deleteSection sid a).totalBars = a.totalBars ∧
     (deleteSection sid a).instruments = a.instruments ∧
     (deleteSection sid a).sections = a.sections.filter fun s => s.id ≠ sid) := by
  refine ⟨⟨rfl, rfl, rfl, ?_⟩, rfl, rfl, rfl, rfl⟩
  have : (deleteActivity iid aid a).instruments = a.instruments.map fun inst =>
      if inst.id = iid then
        { inst with activities := inst.activities.filter fun x => x.id ≠ aid }
      else inst := rfl
  rw [this, List.forall₂_map_right_iff, List.forall₂_same]
  intro inst _
  by_cases h : inst.id = iid <;> simp [h]

theorem delete_frame_conditions_witness :
    (deleteActivity idI1 idA1 arrW).sections = arrW.sections ∧
    (deleteSection idS1 arrW).instruments = arrW.instruments :=
  ⟨(delete_frame_conditions arrW idI1 idA1 idS1).1.2.2.1,
   (delete_frame_conditions arrW idI1 idA1 idS1).2.2.2.1⟩

/-- C9 (amended): `addSection` and `updateSection` re-sort and so always leave
the sections in ascending `startBar` order, and `deleteSection` preserves that
order; an arrangement loaded through import, however, keeps the imported
order verbatim (see the accompanying counterexample). -/
theorem sections_sorted_after_mutators :
    (∀ (prev : ArrangementData) (nid nm : String) (s e : ℚ),
        SortedByStart (addSection nid nm s e prev).sections) ∧
    (∀ (prev : ArrangementData) (sid : String) (u : SectionUpdates),
        SortedByStart (updateSection sid u prev).sections) ∧
    (∀ (prev : ArrangementData) (sid : String),
        SortedByStart prev.sections → SortedByStart (deleteSection sid prev).sections) := by
  refine ⟨?_, ?_, ?_⟩
  · intro prev nid nm s e
    show SortedByStart (calculateRequiredBarsStale initialArrangement
      (addSectionState nid nm s e prev)).sections
    rw [sections_calculateRequiredBarsStale]
    exact List.sorted_insertionSort sectionStartLE _
  · intro prev sid u
    show SortedByStart (calculateRequiredBarsStale initialArrangement
      (updateSectionState sid u prev)).sections
    rw [sections_calculateRequiredBarsStale]
    exact List.sorted_insertionSort sectionStartLE _
  · intro prev sid h
    exact List.Pairwise.sublist (List.filter_sublist _) h

theorem sections_sorted_after_mutators_witness :
    SortedByStart (deleteSection idS1 base64).sections :=
  sections_sorted_after_mutators.2.2 base64 idS1 List.Pairwise.nil

/-- A value produced by a successful `JSON.parse`. -/
inductive JsValue
  | null
  | bool (b : Bool)
  | num (q : ℚ)
  | str (s : String)
  | arr (items : List JsValue)
  | obj (fields : List (String × JsValue))

/-- JS property access `value.key` as used on the parse result: a key lookup
on objects; on any other value, or a missing key, it yields `undefined`,
modelled as `null` (both fail every `typeof`/`Array.isArray` test below and
both are falsy for the purposes of the `|| 0`-style defaults). -/
def jsGet (v : JsValue) (key : String) : JsValue :=
  match v with
  | .obj fields => (List.lookup key fields).getD .null
  | _ => .null

/-- `typeof v === 'string'`. -/
def JsValue.isString : JsValue → Bool
  | .str _ => true
  | _ => false

/-- `typeof v === 'number'`. -/
def JsValue.isNumber : JsValue → Bool
  | .num _ => true
  | _ => false

/-- `Array.isArray(v)`. -/
def JsValue.isArray : JsValue → Bool
  | .arr _ => true
  | _ => false

def JsValue.asString : JsValue → String
  | .str s => s
  | _ => ""

def JsValue.asNum : JsValue → ℚ
  | .num q => q
  | _ => 0

def JsValue.asArr : JsValue → List JsValue
  | .arr l => l
  | _ => []

def JsValue.asOptNum : JsValue → Option ℚ
  | .num q => some q
  | _ => none

def keyName : String := "name"

def keyTotalBars : String := "totalBars"

def keySections : String := "sections"

def keyInstruments : String := "instruments"

def keyId : String := "id"

def keyStartBar : String := "startBar"

def keyEndBar : String := "endBar"

def keyVariation : String := "variation"

def keyColor : String := "color"

def keyActivities : String := "activities"

/-- Reading an activity object out of imported data, at the field granularity
the application consumes. Exact on well-typed data (the import performs no
deeper validation); ill-typed nested fields degrade to the defaults the
JS field reads would produce. -/
def decodeActivity (j : JsValue) : Activity :=
  { id := (jsGet j keyId).asString
    startBar := (jsGet j keyStartBar).asNum
    endBar := (jsGet j keyEndBar).asNum
    variation := (jsGet j keyVariation).asOptNum }

def decodeSection (j : JsValue) : Section :=
  { id := (jsGet j keyId).asString
    name := (jsGet j keyName).asString
    startBar := (jsGet j keyStartBar).asNum
    endBar := (jsGet j keyEndBar).asNum }

def decodeInstrument (j : JsValue) : Instrument :=
  { id := (jsGet j keyId).asString
    name := (jsGet j keyName).asString
    color := (jsGet j keyColor).asString
    activities := ((jsGet j keyActivities).asArr).map decodeActivity }

/-- The unchecked TypeScript cast `JSON.parse(jsonData) as ArrangementData`
performed by `importArrangement`. -/
def decodeArrangement (j : JsValue) : ArrangementData :=
  { name := (jsGet j keyName).asString
    totalBars := (jsGet j keyTotalBars).asNum
    sections := ((jsGet j keySections).asArr).map decodeSection
    instruments := ((jsGet j keyInstruments).asArr).map decodeInstrument }

/-- The structure validation in `App.tsx` `importArrangement` (lines 229–250):
`name` a string, `totalBars` a number, `sections` and `instruments` arrays. -/
def validArrangementJson (j : JsValue) : Bool :=
  (jsGet j keyName).isString && (jsGet j keyTotalBars).isNumber &&
    (jsGet j keySections).isArray && (jsGet j keyInstruments).isArray

/-- `App.tsx` `importArrangement`: `input = none` models a `JSON.parse`
failure. Returns the next state together with the number of `alert`
notifications shown. -/
def importArrangement (input : Option JsValue) (prev : ArrangementData) :
    ArrangementData × ℕ :=
  match input with
  | none => (prev, 1)
  | some j => if validArrangementJson j then (decodeArrangement j, 0) else (prev, 1)

instance (l : List Section) : Decidable (SortedByStart l) :=
  inferInstanceAs (Decidable (l.Pairwise sectionStartLE))

/-- C8: import is rejected when the input is not valid JSON or the parsed
value lacks a string `name`, a numeric `totalBars`, or arrays for `sections`
and `instruments`; on rejection the current Arrangement is returned
completely untouched and exactly one notification is shown. -/
theorem importArrangement_rejects (prev : ArrangementData) (input : Option JsValue)
    (h : input = none ∨ ∃ j, input = some j ∧ validArrangementJson j = false) :
    importArrangement input prev = (prev, 1) := by
  rcases h with h | ⟨j, rfl, hj⟩
  · rw [h]; rfl
  · simp [importArrangement, hj]

def badJson : JsValue := .obj [(keyName, .num 3)]

theorem importArrangement_rejects_witness :
    ((some badJson = (none : Option JsValue)) ∨
      ∃ j, some badJson = some j ∧ validArrangementJson j = false) ∧
    importArrangement (some badJson) base64 = (base64, 1) := by
  have h : (some badJson = (none : Option JsValue)) ∨
      ∃ j, some badJson = some j ∧ validArrangementJson j = false :=
    Or.inr ⟨badJson, rfl, by rfl⟩
  exact ⟨h, importArrangement_rejects base64 (some badJson) h⟩

def strS5 : String := "s5"

def strS1 : String := "s1"

def strB : String := "B"

def strA : String := "A"

def strX : String := "X"

def secJson5 : JsValue :=
  .obj [(keyId, .str strS5), (keyName, .str strB), (keyStartBar, .num 5), (keyEndBar, .num 6)]

def secJson1 : JsValue :=
  .obj [(keyId, .str strS1), (keyName, .str strA), (keyStartBar, .num 1), (keyEndBar, .num 2)]

def jsonC9 : JsValue :=
  .obj [(keyName, .str strX), (keyTotalBars, .num 64),
    (keySections, .arr [secJson5, secJson1]), (keyInstruments, .arr [])]

/-- C9 counterexample: a well-formed import is accepted (no notification) yet
yields a reachable Arrangement whose sections are NOT in ascending `startBar`
order — `importArrangement` stores the parsed sections verbatim, without the
re-sort that `addSection`/`updateSection` perform. -/
theorem import_sections_unsorted :
    (importArrangement (some jsonC9) base64).2 = 0 ∧
    ¬ SortedByStart ((importArrangement (some jsonC9) base64).1.sections) := by
  constructor
  · rfl
  · have hs : (importArrangement (some jsonC9) base64).1.sections =
        [{ id := strS5, name := strB, startBar := 5, endBar := 6 },
         { id := strS1, name := strA, startBar := 1, endBar := 2 }] := by rfl
    rw [hs]
    intro hsorted
    have h51 : sectionStartLE
        { id := strS5, name := strB, startBar := 5, endBar := 6 }
        { id := strS1, name := strA, startBar := 1, endBar := 2 } := by
      exact (List.pairwise_cons.mp hsorted).1 _ (by simp)
    have : ((5 : ℚ) ≤ 1) := h51
    norm_num at this

/-- The three drag modes of `InstrumentRow.tsx` (`edge: 'start' | 'end' |
'move'`); `startEdge`/`endEdge` stand for the source's `'start'`/`'end'`. -/
inductive DragEdge
  | startEdge
  | endEdge
  | move
deriving DecidableEq

/-- The `dragInfo` captured on mouse-down (`InstrumentRow.tsx` lines 104–111). -/
structure DragInfo where
  activityId : String
  edge : DragEdge
  initialBar : ℚ
  initialStart : ℚ
  initialEnd : ℚ
deriving DecidableEq

/-- `InstrumentRow.tsx` `handleMouseMove` (lines 154–200; the global listener
variant at lines 212–258 is the same logic): one pointer-move step of an
in-progress drag, given the bar the pointer is over. Only the `'move'` branch
checks for conflicts with the other activities; the two resize branches clamp
against the dragged activity's own bounds and the grid only. -/
def handleMouseMove (inst : Instrument) (totalBars : ℚ) (info : DragInfo)
    (currentBar : ℚ) : Instrument :=
  let barDiff := currentBar - info.initialBar
  match inst.activities.find? (fun a => a.id = info.activityId) with
  | none => inst
  | some activity =>
    match info.edge with
    | .startEdge =>
      let newStartBar := min (max 1 (info.initialStart + barDiff)) activity.endBar
      { inst with
        activities := updateActivities inst.activities activity.id newStartBar
          activity.endBar activity.variation }
    | .endEdge =>
      let newEndBar := max (min totalBars (info.initialEnd + barDiff)) activity.startBar
      { inst with
        activities := updateActivities inst.activities activity.id activity.startBar
          newEndBar activity.variation }
    | .move =>
      let activityLength := info.initialEnd - info.initialStart
      let ns0 := max 1 (info.initialStart + barDiff)
      let ne0 := ns0 + activityLength
      let newEndBar := if ne0 > totalBars then totalBars else ne0
      let newStartBar := if ne0 > totalBars then max 1 (totalBars - activityLength) else ns0
      let hasConflict := inst.activities.any fun a =>
        if a.id = activity.id then false
        else decide (newStartBar ≤ a.endBar ∧ newEndBar ≥ a.startBar)
      if hasConflict then inst
      else { inst with
        activities := updateActivities inst.activities activity.id newStartBar
          newEndBar activity.variation }

/-- `InstrumentRow.tsx` `findSectionAtBar` (lines 277–279). -/
def findSectionAtBar (sections : List Section) (bar : ℚ) : Option Section :=
  sections.find? fun s => decide (s.startBar ≤ bar ∧ bar ≤ s.endBar)

/-- The append performed by `App.tsx` `addActivity`, seen at the instrument
level: the new activity is `{ id, startBar, endBar }` with no variation. -/
def addActivityToInstrument (inst : Instrument) (newId : String) (s e : ℚ) : Instrument :=
  { inst with activities := inst.activities ++
      [{ id := newId, startBar := s, endBar := e }] }

/-- `InstrumentRow.tsx` `handleCreationMouseUp` (lines 311–361): finalise a
create-by-drag; a drag of less than one bar is treated as a click, which uses
the containing section's span or a default 4-bar span. -/
def handleCreationMouseUp (inst : Instrument) (sections : List Section) (totalBars : ℚ)
    (creationStartBar endBar : ℚ) (newId : String) : Instrument :=
  if |endBar - creationStartBar| < 1 then
    let clickedBar := creationStartBar
    let span := match findSectionAtBar sections clickedBar with
      | some sec => (sec.startBar, sec.endBar)
      | none => (clickedBar, min totalBars (clickedBar + 3))
    let hasConflict := inst.activities.any fun a =>
      decide (span.1 ≤ a.endBar ∧ span.2 ≥ a.startBar)
    if hasConflict then inst else addActivityToInstrument inst newId span.1 span.2
  else
    let startBar := min creationStartBar endBar
    let finalEndBar := max creationStartBar endBar
    let hasConflict := inst.activities.any fun a =>
      decide (startBar ≤ a.endBar ∧ finalEndBar ≥ a.startBar)
    if hasConflict then inst else addActivityToInstrument inst newId startBar finalEndBar

/-- `InstrumentRow.tsx` `handleRowClick` (lines 364–393): create by click. -/
def handleRowClick (inst : Instrument) (sections : List Section) (totalBars : ℚ)
    (clickedBar : ℚ) (newId : String) : Instrument :=
  let span := match findSectionAtBar sections clickedBar with
    | some sec => (sec.startBar, sec.endBar)
    | none => (clickedBar, min totalBars (clickedBar + 3))
  let hasConflict := inst.activities.any fun a =>
    decide (span.1 ≤ a.endBar ∧ span.2 ≥ a.startBar)
  if hasConflict then inst else addActivityToInstrument inst newId span.1 span.2

/-- Inclusive-inclusive overlap of two activity ranges. -/
def Overlaps (a b : Activity) : Prop :=
  a.startBar ≤ b.endBar ∧ b.startBar ≤ a.endBar

instance : DecidableRel Overlaps :=
  fun a b => inferInstanceAs (Decidable (a.startBar ≤ b.endBar ∧ b.startBar ≤ a.endBar))

/-- The invariant: within one instrument, no two distinct activities overlap. -/
def NoOverlap (inst : Instrument) : Prop :=
  inst.activities.Pairwise fun a b => ¬ Overlaps a b

instance (inst : Instrument) : Decidable (NoOverlap inst) :=
  inferInstanceAs (Decidable (List.Pairwise _ _))

lemma noOverlap_append (l : List Activity) (x : Activity)
    (hl : l.Pairwise fun a b => ¬ Overlaps a b)
    (hok : ∀ a ∈ l, ¬ (x.startBar ≤ a.endBar ∧ x.endBar ≥ a.startBar)) :
    (l ++ [x]).Pairwise fun a b => ¬ Overlaps a b := by
  rw [List.pairwise_append]
  refine ⟨hl, List.pairwise_singleton _ _, ?_⟩
  intro a ha b hb
  rw [List.mem_singleton] at hb
  subst hb
  intro hov
  exact hok a ha ⟨hov.2, hov.1⟩

lemma noOverlap_update (l : List Activity) (tid : String) (s e : ℚ) (v : Option ℚ)
    (hnd : (l.map fun a => a.id).Nodup)
    (hl : l.Pairwise fun a b => ¬ Overlaps a b)
    (hok : ∀ a ∈ l, a.id ≠ tid → ¬ (s ≤ a.endBar ∧ e ≥ a.startBar)) :
    (updateActivities l tid s e v).Pairwise fun a b => ¬ Overlaps a b := by
  induction l with
  | nil => exact List.Pairwise.nil
  | cons h t ih =>
    rw [List.map_cons, List.nodup_cons] at hnd
    rw [List.pairwise_cons] at hl
    have step : updateActivities (h :: t) tid s e v =
        (if h.id = tid then
          ({ h with
             startBar := s
             endBar := e
             variation := mergeVariation v h.variation } : Activity)
         else h) :: updateActivities t tid s e v := rfl
    rw [step, List.pairwise_cons]
    by_cases hh : h.id = tid
    · have htid : ∀ x ∈ t, x.id ≠ tid := by
        intro x hx hxe
        exact hnd.1 (by rw [hh, ← hxe]; exact List.mem_map_of_mem _ hx)
      have ht_eq : updateActivities t tid s e v = t := by
        unfold updateActivities
        have hcong : ∀ x ∈ t, (if x.id = tid then
            ({ x with
               startBar := s
               endBar := e
               variation := mergeVariation v x.variation } : Activity)
           else x) = x := by
          intro x hx
          rw [if_neg (htid x hx)]
        rw [List.map_congr_left hcong]
        exact List.map_id' t
      rw [if_pos hh, ht_eq]
      refine ⟨?_, hl.2⟩
      intro b hb hov
      exact hok b (List.mem_cons_of_mem _ hb) (htid b hb) ⟨hov.1, hov.2⟩
    · rw [if_neg hh]
      refine ⟨?_, ih hnd.2 hl.2 (fun a ha => hok a (List.mem_cons_of_mem _ ha))⟩
      intro b hb hov
      obtain ⟨x, hx, hbx⟩ := List.mem_map.mp hb
      by_cases hxt : x.id = tid
      · rw [if_pos hxt] at hbx
        subst hbx
        exact hok h (List.mem_cons_self _ _) hh ⟨hov.2, hov.1⟩
      · rw [if_neg hxt] at hbx
        subst hbx
        exact hl.1 x hx hov

def actA : Activity := { id := "a", startBar := 1, endBar := 4 }

def actB : Activity := { id := "b", startBar := 6, endBar := 10 }

def instC1 : Instrument :=
  { id := "i1", name := "bass", color := "#4285F4", activities := [actA, actB] }

def infoStart : DragInfo :=
  { activityId := "b", edge := .startEdge, initialBar := 6, initialStart := 6, initialEnd := 10 }

def infoEnd : DragInfo :=
  { activityId := "a", edge := .endEdge, initialBar := 1, initialStart := 1, initialEnd := 4 }

/-- C1 counterexample: from the non-overlapping state `[1,4], [6,10]`, a
resize-start drag of the second activity to bar 2 and a resize-end drag of
the first activity to bar 5 are both committed by `handleMouseMove` without
any collision check, producing overlapping activities. -/
theorem resize_breaks_noOverlap :
    NoOverlap instC1 ∧
    ¬ NoOverlap (handleMouseMove instC1 64 infoStart 2) ∧
    ¬ NoOverlap (handleMouseMove instC1 64 infoEnd 5) := by
  refine ⟨by decide, ?_, ?_⟩
  · have hf : instC1.activities.find? (fun a => a.id = infoStart.activityId) = some actB := by
      rfl
    have h1 : handleMouseMove instC1 64 infoStart 2 =
        { id := "i1", name := "bass", color := "#4285F4",
          activities := [actA, { id := "b", startBar := 2, endBar := 10 }] } := by
      unfold handleMouseMove
      rw [hf]
      norm_num [infoStart, actA, actB, instC1, updateActivities, mergeVariation]
      all_goals decide
    rw [h1]
    intro h
    rw [NoOverlap, List.pairwise_cons] at h
    have := h.1 _ (List.mem_cons_self _ _)
    exact this ⟨by norm_num [actA], by norm_num [actA]⟩
  · have hf : instC1.activities.find? (fun a => a.id = infoEnd.activityId) = some actA := by
      rfl
    have h2 : handleMouseMove instC1 64 infoEnd 5 =
        { id := "i1", name := "bass", color := "#4285F4",
          activities := [{ id := "a", startBar := 1, endBar := 8 }, actB] } := by
      unfold handleMouseMove
      rw [hf]
      norm_num [infoEnd, actA, actB, instC1, updateActivities, mergeVariation]
      all_goals decide
    rw [h2]
    intro h
    rw [NoOverlap, List.pairwise_cons] at h
    have := h.1 _ (List.mem_cons_self _ _)
    exact this ⟨by norm_num [actB], by norm_num [actB]⟩

/-- C1 (amended): assuming the activities of the instrument carry distinct
ids, the mutations that check collisions — create-by-click, create-by-drag
and move — all preserve the no-overlap invariant; the resize-start and
resize-end drags do not check collisions and can violate it (see the
counterexample). -/
lemma noOverlap_addStep (inst : Instrument) (newId : String) (s e : ℚ)
    (hno : NoOverlap inst) :
    NoOverlap (if inst.activities.any fun a => decide (s ≤ a.endBar ∧ e ≥ a.startBar)
      then inst else addActivityToInstrument inst newId s e) := by
  split
  · exact hno
  · rename_i hconf
    apply noOverlap_append inst.activities _ hno
    intro a ha hcontra
    exact hconf (List.any_eq_true.mpr ⟨a, ha, by simpa using hcontra⟩)

lemma noOverlap_moveStep (inst : Instrument) (tid : String) (ns ne : ℚ) (v : Option ℚ)
    (hnd : (inst.activities.map fun a => a.id).Nodup)
    (hno : NoOverlap inst) :
    NoOverlap (if inst.activities.any fun a =>
        if a.id = tid then false else decide (ns ≤ a.endBar ∧ ne ≥ a.startBar)
      then inst
      else { inst with activities := updateActivities inst.activities tid ns ne v }) := by
  split
  · exact hno
  · rename_i hconf
    apply noOverlap_update inst.activities tid ns ne v hnd hno
    intro a ha hne2 hcontra
    apply hconf
    refine List.any_eq_true.mpr ⟨a, ha, ?_⟩
    show (if a.id = tid then false else decide (ns ≤ a.endBar ∧ ne ≥ a.startBar)) = true
    rw [if_neg hne2]
    exact decide_eq_true hcontra

theorem create_move_preserve_noOverlap (inst : Instrument) (totalBars : ℚ)
    (sections : List Section)
    (hnd : (inst.activities.map fun a => a.id).Nodup)
    (hno : NoOverlap inst) :
    (∀ (info : DragInfo) (currentBar : ℚ), info.edge = DragEdge.move →
        NoOverlap (handleMouseMove inst totalBars info currentBar)) ∧
    (∀ (creationStartBar endBar : ℚ) (newId : String),
        NoOverlap (handleCreationMouseUp inst sections totalBars creationStartBar endBar newId)) ∧
    (∀ (clickedBar : ℚ) (newId : String),
        NoOverlap (handleRowClick inst sections totalBars clickedBar newId)) := by
  refine ⟨?_, ?_, ?_⟩
  · intro info currentBar he
    unfold handleMouseMove
    cases hfind : inst.activities.find? (fun a => a.id = info.activityId) with
    | none => exact hno
    | some activity =>
      rw [he]
      exact noOverlap_moveStep inst activity.id _ _ _ hnd hno
  · intro creationStartBar endBar newId
    unfold handleCreationMouseUp
    split
    · exact noOverlap_addStep inst newId _ _ hno
    · exact noOverlap_addStep inst newId _ _ hno
  · intro clickedBar newId
    exact noOverlap_addStep inst newId _ _ hno

def infoMove : DragInfo :=
  { activityId := "b", edge := .move, initialBar := 6, initialStart := 6, initialEnd := 10 }

theorem create_move_preserve_noOverlap_witness :
    (instC1.activities.map fun a => a.id).Nodup ∧ NoOverlap instC1 ∧
    NoOverlap (handleMouseMove instC1 64 infoMove 6) :=
  ⟨by decide, by decide,
    (create_move_preserve_noOverlap instC1 64 [] (by decide) (by decide)).1 infoMove 6 rfl⟩

/-- The regex test `/^[A-Z]$/.test(name)` from the section auto-namer. -/
def isSingleUpperLetter (s : String) : Bool :=
  match s.toList with
  | [c] => decide ('A' ≤ c ∧ c ≤ 'Z')
  | _ => false

/-- `name.charCodeAt(0)` for the names handled by the auto-namer: the first
character (with an arbitrary default for the empty string, which cannot pass
the single-letter filter). -/
def letterOf (s : String) : Char :=
  s.toList.headD 'A'

/-- The `localeCompare` ordering used to sort the single-letter section names.
On single uppercase ASCII letters every locale collation agrees with code
point order, so it is modelled by comparing the first characters. -/
def sectionNameLE (a b : Section) : Prop :=
  letterOf a.name ≤ letterOf b.name

instance : DecidableRel sectionNameLE :=
  fun a b => inferInstanceAs (Decidable (letterOf a.name ≤ letterOf b.name))

instance : IsTotal Section sectionNameLE :=
  ⟨fun a b => le_total (letterOf a.name) (letterOf b.name)⟩

instance : IsTrans Section sectionNameLE :=
  ⟨fun _ _ _ h1 h2 => le_trans h1 h2⟩

def defaultSection : Section :=
  { id := "", name := "", startBar := 0, endBar := 0 }

/-- `String.fromCharCode(lastLetter.charCodeAt(0) + 1)` followed by the
`nextLetter > "Z" ? "A" : nextLetter` wrap (the comparison of the single-char
strings is the comparison of their characters). -/
def wrapNextLetter (lastLetter : Char) : String :=
  let nextLetter := Char.ofNat (lastLetter.toNat + 1)
  if 'Z' < nextLetter then "A" else String.singleton nextLetter

/-- `SectionBar.tsx` section auto-naming (`handleTimelineClick` lines 155–172;
the identical logic is duplicated in `handleMouseUp` lines 244–267):
`"Intro"` for the first section; otherwise the letter after the
alphabetically-last single-uppercase-letter name (sorted, take the last, add
one, wrapping past `'Z'` to `"A"`), or `"A"` when no single-letter name
exists. -/
def nextSectionName (sections : List Section) : String :=
  if sections.isEmpty then "Intro"
  else
    let letterSections := sections.filter fun s => isSingleUpperLetter s.name
    if letterSections.length > 0 then
      let sorted := letterSections.insertionSort sectionNameLE
      wrapNextLetter (letterOf (sorted.getLastD defaultSection).name)
    else "A"

/-- Whether a set of letters is contiguous: every character lying between two
members is itself a member. -/
def contiguousLetters (cs : List Char) : Bool :=
  cs.all fun lo => cs.all fun hi =>
    (List.range (hi.toNat + 1 - lo.toNat)).all fun k => cs.contains (Char.ofNat (lo.toNat + k))

/-- The naming rule exactly as the claim words it: next letter after the
alphabetically-last single-uppercase-letter name only when those names form a
contiguous set, else `"A"`. -/
def nextSectionNameSpec (sections : List Section) : String :=
  if sections.isEmpty then "Intro"
  else
    let letters := (sections.filter fun s => isSingleUpperLetter s.name).map
      fun s => letterOf s.name
    if !letters.isEmpty && contiguousLetters letters then
      wrapNextLetter (letters.foldr max 'A')
    else "A"

/-- The naming rule with the contiguity condition removed. -/
def nextSectionNameAmended (sections : List Section) : String :=
  if sections.isEmpty then "Intro"
  else
    let letters := (sections.filter fun s => isSingleUpperLetter s.name).map
      fun s => letterOf s.name
    if letters.isEmpty then "A"
    else wrapNextLetter (letters.foldr max 'A')

def secsC7 : List Section :=
  [{ id := "c1", name := "A", startBar := 1, endBar := 2 },
   { id := "c2", name := "D", startBar := 3, endBar := 4 }]

/-- C7 counterexample: with existing section names `A` and `D` — single
uppercase letters that do NOT form a contiguous set — the claim's rule names
the next section `"A"`, but the code takes the letter after the
alphabetically-last name regardless and produces `"E"`. -/
theorem nextSectionName_ignores_contiguity :
    nextSectionNameSpec secsC7 = "A" ∧ nextSectionName secsC7 = "E" ∧
    nextSectionNameSpec secsC7 ≠ nextSectionName secsC7 := by
  decide

lemma rel_getLast?_of_pairwise {α} {r : α → α → Prop} (hrefl : ∀ a, r a a) :
    ∀ (m : List α), m.Pairwise r → ∀ y, m.getLast? = some y → ∀ x ∈ m, r x y := by
  intro m
  induction m with
  | nil => intro _ y hy; cases hy
  | cons b t ih =>
    intro hpw y hy x hx
    rw [List.pairwise_cons] at hpw
    cases t with
    | nil =>
      cases hy
      rw [List.mem_singleton] at hx
      subst hx
      exact hrefl _
    | cons c t2 =>
      rw [List.getLast?_cons_cons] at hy
      rcases List.mem_cons.mp hx with hx | hx
      · subst hx
        exact hpw.1 y (List.mem_of_mem_getLast? hy)
      · exact ih hpw.2 y hy x hx

lemma le_foldr_max_of_mem {α} [LinearOrder α] (l : List α) (b x : α) (hx : x ∈ l) :
    x ≤ l.foldr max b := by
  induction l with
  | nil => cases hx
  | cons c t ih =>
    rcases List.mem_cons.mp hx with hx | hx
    · subst hx
      exact le_max_left _ _
    · exact le_trans (ih hx) (le_max_right _ _)

lemma foldr_max_le {α} [LinearOrder α] (l : List α) (b c : α) (hb : b ≤ c)
    (h : ∀ x ∈ l, x ≤ c) : l.foldr max b ≤ c := by
  induction l with
  | nil => exact hb
  | cons d t ih =>
    refine max_le (h d (List.mem_cons_self _ _)) ?_
    exact ih fun x hx => h x (List.mem_cons_of_mem _ hx)

lemma letterOf_ge_A (s : String) (h : isSingleUpperLetter s = true) :
    'A' ≤ letterOf s := by
  unfold isSingleUpperLetter at h
  unfold letterOf
  cases hs : s.toList with
  | nil => rw [hs] at h; cases h
  | cons c t =>
    cases t with
    | nil =>
      rw [hs] at h
      exact (of_decide_eq_true h).1
    | cons c2 t2 => rw [hs] at h; cases h

lemma letterOf_sorted_last_eq_max (ls : List Section) (hne : ls ≠ [])
    (hA : ∀ s ∈ ls, 'A' ≤ letterOf s.name) :
    letterOf ((ls.insertionSort sectionNameLE).getLastD defaultSection).name =
      (ls.map fun s => letterOf s.name).foldr max 'A' := by
  have hperm := List.perm_insertionSort sectionNameLE ls
  have hm : ls.insertionSort sectionNameLE ≠ [] := by
    intro h0
    exact hne (List.Perm.eq_nil (h0 ▸ hperm).symm)
  obtain ⟨y, hy⟩ := Option.isSome_iff_exists.mp (List.getLast?_isSome.mpr hm)
  have hyD : (ls.insertionSort sectionNameLE).getLastD defaultSection = y := by
    rw [List.getLastD_eq_getLast?, hy]
    rfl
  have hymem : y ∈ ls := hperm.mem_iff.mp (List.mem_of_mem_getLast? hy)
  have hmax : ∀ x ∈ ls, sectionNameLE x y := by
    intro x hx
    exact @rel_getLast?_of_pairwise Section sectionNameLE
      (fun a => le_refl (letterOf a.name)) _
      (List.sorted_insertionSort sectionNameLE ls) y hy x (hperm.mem_iff.mpr hx)
  rw [hyD]
  refine le_antisymm ?_ ?_
  · exact le_foldr_max_of_mem _ _ _ (List.mem_map_of_mem _ hymem)
  · refine foldr_max_le _ _ _ (hA y hymem) ?_
    intro c hc
    obtain ⟨x, hx, rfl⟩ := List.mem_map.mp hc
    exact hmax x hx

/-- C7 (amended): the first section is named `"Intro"`; afterwards, whenever
any single-uppercase-letter section names exist, the new section gets the
letter after the alphabetically-last of them (wrapping `Z → A`) with no
contiguity requirement, and only when no single-letter name exists does it
default to `"A"`. -/
theorem nextSectionName_eq_amended (sections : List Section) :
    nextSectionName sections = nextSectionNameAmended sections := by
  unfold nextSectionName nextSectionNameAmended
  by_cases hemp : sections.isEmpty
  · simp [hemp]
  · simp only [hemp, Bool.false_eq_true, if_false]
    by_cases hl : (sections.filter fun s => isSingleUpperLetter s.name) = []
    · simp [hl]
    · have hlen : (sections.filter fun s => isSingleUpperLetter s.name).length > 0 :=
        List.length_pos.mpr hl
      have hmapne : ¬ ((sections.filter fun s => isSingleUpperLetter s.name).map
          fun s => letterOf s.name).isEmpty := by
        simp [List.isEmpty_iff, hl]
      rw [if_pos hlen, if_neg (by simpa using hmapne)]
      rw [letterOf_sorted_last_eq_max _ hl]
      intro s hs
      have hsp := List.of_mem_filter hs
      exact letterOf_ge_A s.name hsp

/-- `MusicPlayer.tsx` `BeatInfo`: beat and bar positions in seconds plus the
time-signature numerator. -/
structure BeatInfo where
  beatPositions : List ℚ
  barPositions : List ℚ
  beatsPerBar : ℕ
deriving DecidableEq

/-- `MusicPlayer.tsx` `seekToBar` (lines 713–792), as the playback time the
handler resolves the requested 1-based bar index to (`none` when it returns
without seeking). `buffer` is the decoded audio buffer's duration, `none`
when no buffer is loaded. With no usable grid the position is estimated
against a default 64-bar canvas; past the known bars it is extrapolated from
the last two bar positions; otherwise the bar position is looked up. -/
def seekToBarTime (barIndex : ℤ) (beatInfo : Option BeatInfo) (buffer : Option ℚ) :
    Option ℚ :=
  let zeroBasedIndex := barIndex - 1
  let noGrid := match beatInfo with
    | none => true
    | some bi => bi.barPositions.isEmpty
  if noGrid then
    match buffer with
    | some duration =>
      if 0 < duration then
        let barDuration := duration / 64
        some ((zeroBasedIndex : ℚ) * barDuration)
      else none
    | none => none
  else
    match beatInfo with
    | none => none
    | some bi =>
      let n := bi.barPositions.length
      if (n : ℤ) ≤ zeroBasedIndex ∧ 2 ≤ n then
        let lastBarDuration := bi.barPositions.getD (n - 1) 0 - bi.barPositions.getD (n - 2) 0
        some (bi.barPositions.getD (n - 1) 0 +
          ((zeroBasedIndex - ((n : ℤ) - 1) : ℤ) : ℚ) * lastBarDuration)
      else if zeroBasedIndex < 0 ∨ (n : ℤ) ≤ zeroBasedIndex then none
      else bi.barPositions[zeroBasedIndex.toNat]?

/-- The grid of the claim's extrapolation example: known bar positions
`[0, 2, 4]` (a 2-second bar duration). -/
def gridC2 : BeatInfo :=
  { beatPositions := [0, 2, 4], barPositions := [0, 2, 4], beatsPerBar := 1 }

/-- C2 counterexample: seeking to bar 5 on the grid with `barPositions =
[0, 2, 4]` does not yield 6 seconds — the code extrapolates
`4 + (4 - 2) · 2 = 8`. -/
theorem extrapolate_bar5_ne_six :
    seekToBarTime 5 (some gridC2) (some 128) ≠ some 6 := by
  norm_num [seekToBarTime, gridC2]

/-- C2 (amended): on that grid, seeking to bar 5 yields 8 seconds — two
2-second steps past bar 3 at 4 s, the last known bar (bar 4 is the one that
lands at 6 s); the fallback duration argument is irrelevant. -/
theorem extrapolate_bar5 (buffer : Option ℚ) :
    seekToBarTime 5 (some gridC2) buffer = some 8 := by
  cases buffer <;> norm_num [seekToBarTime, gridC2]

/-- C6: with no beat grid and a loaded audio buffer of positive duration,
seeking to any 1-based bar estimates `(barIndex - 1) · (duration / 64)`; in
particular bar 1 at duration 128 gives 0 s and bar 65 gives 128 s. -/
theorem fallback_estimation (barIndex : ℤ) (hbar : 1 ≤ barIndex) (d : ℚ) (hd : 0 < d) :
    seekToBarTime barIndex none (some d) = some (((barIndex - 1 : ℤ) : ℚ) * (d / 64)) ∧
    seekToBarTime 1 none (some 128) = some 0 ∧
    seekToBarTime 65 none (some 128) = some 128 := by
  refine ⟨?_, by norm_num [seekToBarTime], by norm_num [seekToBarTime]⟩
  simp [seekToBarTime, hd]

theorem fallback_estimation_witness :
    (1 : ℤ) ≤ 65 ∧ (0 : ℚ) < 128 ∧ seekToBarTime 65 none (some 128) = some 128 :=
  ⟨by decide, by decide, (fallback_estimation 65 (by decide) 128 (by decide)).2.2⟩

/-- The bar-for-time conversion in `MusicPlayer.tsx` `updateWebAudioTime`
(lines 616–625): `currentBeatIndex = beatPositions.findIndex(time => time >
currentAudioTime) - 1` (JS `findIndex` yields `-1` when no element matches),
and the current bar `⌊currentBeatIndex / beatsPerBar⌋` is produced only when
`currentBeatIndex ≥ 0`. -/
def barForTime (t : ℚ) (beatInfo : Option BeatInfo) : Option ℕ :=
  match beatInfo with
  | none => none
  | some bi =>
    let currentBeatIndex : ℤ :=
      (match bi.beatPositions.findIdx? fun p => decide (t < p) with
        | some j => (j : ℤ)
        | none => -1) - 1
    if 0 ≤ currentBeatIndex then some (currentBeatIndex.toNat / bi.beatsPerBar)
    else none

/-- The claim's reading of the conversion, following its words: the greatest
index `k` such that `beatPositions[k] ≤ t`. -/
def greatestBeatLE (t : ℚ) (positions : List ℚ) : Option ℕ :=
  ((List.range positions.length).filter fun k => decide (positions.getD k 0 ≤ t)).max?

/-- The claim's reading of the conversion: `⌊k / beatsPerBar⌋` for the
greatest `k` with `beatPositions[k] ≤ t`, unknown exactly when the grid is
absent or `t` precedes the first beat. -/
def barForTimeSpec (t : ℚ) (beatInfo : Option BeatInfo) : Option ℕ :=
  match beatInfo with
  | none => none
  | some bi =>
    match greatestBeatLE t bi.beatPositions with
    | none => none
    | some k => some (k / bi.beatsPerBar)

def gridC4 : BeatInfo :=
  { beatPositions := [0, 1], barPositions := [0], beatsPerBar := 1 }

/-- C4 counterexample: on the grid with beats at 0 s and 1 s, at `t = 5` the
greatest beat index at or before `t` is 1, so the claim demands bar
`⌊1 / 1⌋ = 1`; the code returns no bar at all, because `findIndex` finds no
beat strictly after `t` and yields `-1 - 1 = -2`. -/
theorem barForTime_after_last_beat_ne_spec :
    barForTimeSpec 5 (some gridC4) = some 1 ∧ barForTime 5 (some gridC4) = none := by
  constructor
  · decide
  · decide

lemma getD_eq_getElem_rat (l : List ℚ) (k : ℕ) (h : k < l.length) :
    l.getD k 0 = l[k] := by
  rw [List.getD_eq_getElem?_getD, List.getElem?_eq_getElem h]
  rfl

lemma sorted_getD_le (l : List ℚ) (hs : l.Pairwise (· ≤ ·)) (i j : ℕ)
    (hij : i ≤ j) (hj : j < l.length) : l.getD i 0 ≤ l.getD j 0 := by
  have hi : i < l.length := lt_of_le_of_lt (Nat.lt_succ_iff.mp (Nat.lt_succ_of_le hij)) hj
  rw [getD_eq_getElem_rat l i hi, getD_eq_getElem_rat l j hj]
  rcases Nat.lt_or_ge i j with hlt | hge
  · exact List.pairwise_iff_getElem.mp hs i j hi hj hlt
  · have : i = j := le_antisymm hij hge
    subst this
    exact le_refl _

lemma barForTime_of_findIdx_none (t : ℚ) (bi : BeatInfo)
    (h : bi.beatPositions.findIdx? (fun p => decide (t < p)) = none) :
    barForTime t (some bi) = none := by
  simp only [barForTime]
  rw [h]
  rfl

lemma barForTime_of_findIdx_zero (t : ℚ) (bi : BeatInfo)
    (h : bi.beatPositions.findIdx? (fun p => decide (t < p)) = some 0) :
    barForTime t (some bi) = none := by
  simp only [barForTime]
  rw [h]
  rfl

lemma barForTime_of_findIdx_pos (t : ℚ) (bi : BeatInfo) (j : ℕ)
    (h : bi.beatPositions.findIdx? (fun p => decide (t < p)) = some j) (hj1 : 1 ≤ j) :
    barForTime t (some bi) = some ((j - 1) / bi.beatsPerBar) := by
  simp only [barForTime]
  rw [h]
  rw [if_pos (by omega : (0 : ℤ) ≤ (j : ℤ) - 1)]
  have htn : ((j : ℤ) - 1).toNat = j - 1 := by omega
  rw [htn]

/-- C4 (amended): for a grid with ascending beat positions, the conversion
agrees with the claim's rule — bar `⌊k / beatsPerBar⌋` for the greatest `k`
with `beatPositions[k] ≤ t` — whenever some beat position strictly exceeds
`t`; and it reports no bar exactly when the grid is absent, `t` precedes the
first beat, or no beat position exceeds `t` (that is, `t` is at or past the
last beat — the case the claim's "exactly when" omits). -/
theorem barForTime_matches_spec (bi : BeatInfo) (t : ℚ) :
    (bi.beatPositions.Pairwise (· ≤ ·) → (∃ p ∈ bi.beatPositions, t < p) →
        barForTime t (some bi) = barForTimeSpec t (some bi)) ∧
    (barForTime t (some bi) = none ↔
      (∀ p ∈ bi.beatPositions, p ≤ t) ∨
      ∃ p0, bi.beatPositions.head? = some p0 ∧ t < p0) ∧
    barForTime t (none : Option BeatInfo) = none := by
  refine ⟨?_, ?_, rfl⟩
  · intro hsort hex
    have hlt : bi.beatPositions.findIdx (fun p => decide (t < p)) <
        bi.beatPositions.length := by
      refine List.findIdx_lt_length_of_exists ?_
      obtain ⟨p, hp, htp⟩ := hex
      exact ⟨p, hp, decide_eq_true htp⟩
    have hfi : bi.beatPositions.findIdx? (fun p => decide (t < p)) =
        some (bi.beatPositions.findIdx (fun p => decide (t < p))) :=
      List.findIdx?_eq_some_iff_findIdx_eq.mpr ⟨hlt, rfl⟩
    have hatj : t < bi.beatPositions.getD
        (bi.beatPositions.findIdx (fun p => decide (t < p))) 0 := by
      rw [getD_eq_getElem_rat _ _ hlt]
      exact of_decide_eq_true (@List.findIdx_getElem _ _ _ hlt)
    by_cases hj0 : bi.beatPositions.findIdx (fun p => decide (t < p)) = 0
    · have hleft : barForTime t (some bi) = none :=
        barForTime_of_findIdx_zero t bi (by rw [hfi, hj0])
      have hempty : ((List.range bi.beatPositions.length).filter
          fun k => decide (bi.beatPositions.getD k 0 ≤ t)) = [] := by
        rw [List.filter_eq_nil_iff]
        intro k hk
        rw [List.mem_range] at hk
        have h0k : bi.beatPositions.getD 0 0 ≤ bi.beatPositions.getD k 0 :=
          sorted_getD_le _ hsort 0 k (Nat.zero_le k) hk
        have hkt : t < bi.beatPositions.getD k 0 := lt_of_lt_of_le (hj0 ▸ hatj) h0k
        rw [decide_eq_true_eq]
        exact not_le.mpr hkt
      have hright : barForTimeSpec t (some bi) = none := by
        simp only [barForTimeSpec, greatestBeatLE]
        rw [hempty]
        rfl
      rw [hleft, hright]
    · have hj1 : 1 ≤ bi.beatPositions.findIdx (fun p => decide (t < p)) :=
        Nat.one_le_iff_ne_zero.mpr hj0
      have hgr : greatestBeatLE t bi.beatPositions =
          some (bi.beatPositions.findIdx (fun p => decide (t < p)) - 1) := by
        simp only [greatestBeatLE]
        rw [List.max?_eq_some_iff (fun a => le_refl a) (fun a b => max_choice a b)
          (fun a b c => max_le_iff)]
        constructor
        · rw [List.mem_filter, List.mem_range]
          refine ⟨by omega, ?_⟩
          refine decide_eq_true ?_
          have hplt := @List.not_of_lt_findIdx ℚ (fun p => decide (t < p))
            bi.beatPositions
            (bi.beatPositions.findIdx (fun p => decide (t < p)) - 1) (by omega)
          rw [← getD_eq_getElem_rat _ _ (by omega)] at hplt
          exact not_lt.mp (of_decide_eq_false hplt)
        · intro b hb
          rw [List.mem_filter, List.mem_range] at hb
          by_contra hcon
          have hjb : bi.beatPositions.findIdx (fun p => decide (t < p)) ≤ b := by omega
          have hle : bi.beatPositions.getD
              (bi.beatPositions.findIdx (fun p => decide (t < p))) 0 ≤
              bi.beatPositions.getD b 0 :=
            sorted_getD_le _ hsort _ b hjb hb.1
          have hbt : bi.beatPositions.getD b 0 ≤ t := of_decide_eq_true hb.2
          exact absurd (le_trans hle hbt) (not_le.mpr hatj)
      have hleft : barForTime t (some bi) =
          some ((bi.beatPositions.findIdx (fun p => decide (t < p)) - 1) /
            bi.beatsPerBar) :=
        barForTime_of_findIdx_pos t bi _ hfi hj1
      have hright : barForTimeSpec t (some bi) =
          some ((bi.beatPositions.findIdx (fun p => decide (t < p)) - 1) /
            bi.beatsPerBar) := by
        simp only [barForTimeSpec]
        rw [hgr]
      rw [hleft, hright]
  · cases hfi : bi.beatPositions.findIdx? (fun p => decide (t < p)) with
    | none =>
      rw [barForTime_of_findIdx_none t bi hfi]
      simp only [true_iff]
      refine Or.inl ?_
      intro p hp
      exact not_lt.mp (of_decide_eq_false ((List.findIdx?_eq_none_iff.mp hfi) p hp))
    | some j =>
      have hj := List.findIdx?_eq_some_iff_findIdx_eq.mp hfi
      by_cases hj0 : j = 0
      · subst hj0
        rw [barForTime_of_findIdx_zero t bi hfi]
        simp only [true_iff]
        refine Or.inr ⟨bi.beatPositions.getD 0 0, ?_, ?_⟩
        · rw [List.head?_eq_getElem?, List.getElem?_eq_getElem hj.1,
            getD_eq_getElem_rat _ _ hj.1]
        · have hpj := @List.findIdx_getElem ℚ (fun p => decide (t < p))
            bi.beatPositions (hj.2 ▸ hj.1)
          rw [← getD_eq_getElem_rat _ _ (hj.2 ▸ hj.1)] at hpj
          rw [hj.2] at hpj
          exact of_decide_eq_true hpj
      · have hj1 : 1 ≤ j := Nat.one_le_iff_ne_zero.mpr hj0
        rw [barForTime_of_findIdx_pos t bi j hfi hj1]
        constructor
        · intro hcon
          exact Option.noConfusion hcon
        · rintro (hall | ⟨p0, hp0, htp0⟩)
          · have hpj := @List.findIdx_getElem ℚ (fun p => decide (t < p))
              bi.beatPositions (hj.2 ▸ hj.1)
            rw [← getD_eq_getElem_rat _ _ (hj.2 ▸ hj.1)] at hpj
            rw [hj.2] at hpj
            have htj : t < bi.beatPositions.getD j 0 := of_decide_eq_true hpj
            have hmem : bi.beatPositions.getD j 0 ∈ bi.beatPositions := by
              rw [getD_eq_getElem_rat _ _ hj.1]
              exact List.getElem_mem hj.1
            exact absurd (hall _ hmem) (not_le.mpr htj)
          · have h0 : 0 < bi.beatPositions.length := by omega
            rw [List.head?_eq_getElem?, List.getElem?_eq_getElem h0] at hp0
            have hp0b : p0 = bi.beatPositions.getD 0 0 := by
              rw [getD_eq_getElem_rat _ _ h0]
              injection hp0 with hinj
              exact hinj.symm
            have hfalse := @List.not_of_lt_findIdx ℚ (fun p => decide (t < p))
              bi.beatPositions 0 (by omega)
            rw [← getD_eq_getElem_rat _ _ (by omega : 0 < bi.beatPositions.length)] at hfalse
            rw [hp0b] at htp0
            exact absurd htp0 (of_decide_eq_false hfalse)

theorem barForTime_matches_spec_witness :
    gridC2.beatPositions.Pairwise (· ≤ ·) ∧
    (∃ p ∈ gridC2.beatPositions, (1 : ℚ) < p) ∧
    barForTime 1 (some gridC2) = barForTimeSpec 1 (some gridC2) := by
  have h1 : gridC2.beatPositions.Pairwise (· ≤ ·) := by decide
  have h2 : ∃ p ∈ gridC2.beatPositions, (1 : ℚ) < p := ⟨2, by decide, by decide⟩
  exact ⟨h1, h2, (barForTime_matches_spec gridC2 1).1 h1 h2⟩

/-- `MusicPlayer.tsx` `calculateBeatPositions` (lines 847–898). `buffer` is
the decoded audio buffer's duration (`none` when no buffer is loaded);
`tsBeats` is `timeSignature.beats`, defaulted to 4 when falsy. The `for` loop
that pushes every `beatsPerBar`-th index is written as the filter of the
multiples of `beatsPerBar` below `totalBeats`, in the same increasing order;
the NaN guard on the BPM is vacuous over `ℚ`. -/
def calculateBeatPositions (detectedBpm : ℚ) (buffer : Option ℚ) (tsBeats : ℕ) :
    Option BeatInfo :=
  match buffer with
  | none => none
  | some duration =>
    if detectedBpm ≤ 0 then none
    else
      let beatsPerSecond := detectedBpm / 60
      let secondsPerBeat := 60 / detectedBpm
      let beatsPerBar := if tsBeats = 0 then 4 else tsBeats
      let totalBeats := (max 1 ⌈duration * beatsPerSecond⌉).toNat
      let beatPositions := (List.range totalBeats).map fun i : ℕ => (i : ℚ) * secondsPerBeat
      let barPositions := ((List.range totalBeats).filter fun i => i % beatsPerBar = 0).map
        fun i : ℕ => (i : ℚ) * secondsPerBeat
      if beatPositions.length > 0 ∧ barPositions.length > 0 then
        some { beatPositions := beatPositions, barPositions := barPositions,
               beatsPerBar := beatsPerBar }
      else none

lemma getD_map_range (f : ℕ → ℚ) (n i : ℕ) (h : i < n) :
    ((List.range n).map f).getD i 0 = f i := by
  rw [List.getD_eq_getElem?_getD, List.getElem?_map, List.getElem?_range h]
  rfl

/-- C5: for `bpm > 0`, `duration ≥ 0` and `beatsPerBar ≥ 1` the computed grid
has `max(1, ⌈duration · bpm/60⌉)` beats, beat `i` exactly at `i · 60/bpm`
(the first beat at `t = 0`), and `barPositions` equal to every
`beatsPerBar`-th entry of `beatPositions` (indices `0, beatsPerBar,
2·beatsPerBar, …`); no grid is produced for a non-positive BPM or an absent
buffer. -/
theorem calculateBeatPositions_spec (bpm duration : ℚ) (tsBeats : ℕ)
    (hbpm : 0 < bpm) (hdur : 0 ≤ duration) (hts : 1 ≤ tsBeats) :
    (∃ bi, calculateBeatPositions bpm (some duration) tsBeats = some bi ∧
      bi.beatsPerBar = tsBeats ∧
      (bi.beatPositions.length : ℤ) = max 1 ⌈duration * (bpm / 60)⌉ ∧
      (∀ i < bi.beatPositions.length, bi.beatPositions.getD i 0 = (i : ℚ) * (60 / bpm)) ∧
      bi.beatPositions.getD 0 0 = 0 ∧
      bi.barPositions = ((List.range bi.beatPositions.length).filter
          fun i => i % tsBeats = 0).map fun i => bi.beatPositions.getD i 0) ∧
    (∀ (bpm2 : ℚ) (buf : Option ℚ) (ts2 : ℕ), bpm2 ≤ 0 →
        calculateBeatPositions bpm2 buf ts2 = none) ∧
    (∀ (bpm2 : ℚ) (ts2 : ℕ), calculateBeatPositions bpm2 none ts2 = none) := by
  have hneg : ∀ (bpm2 : ℚ) (buf : Option ℚ) (ts2 : ℕ), bpm2 ≤ 0 →
      calculateBeatPositions bpm2 buf ts2 = none := by
    intro bpm2 buf ts2 h2
    cases buf with
    | none => rfl
    | some d =>
      simp only [calculateBeatPositions]
      rw [if_pos h2]
  refine ⟨?_, hneg, fun bpm2 ts2 => rfl⟩
  have hn1 : (1 : ℤ) ≤ max 1 ⌈duration * (bpm / 60)⌉ := le_max_left _ _
  have hnpos : 0 < (max 1 ⌈duration * (bpm / 60)⌉).toNat := by omega
  have hkey : calculateBeatPositions bpm (some duration) tsBeats = some
      { beatPositions := (List.range (max 1 ⌈duration * (bpm / 60)⌉).toNat).map
          fun i : ℕ => (i : ℚ) * (60 / bpm)
        barPositions := (((List.range (max 1 ⌈duration * (bpm / 60)⌉).toNat).filter
          fun i => i % tsBeats = 0)).map fun i : ℕ => (i : ℚ) * (60 / bpm)
        beatsPerBar := tsBeats } := by
    simp only [calculateBeatPositions]
    rw [if_neg (not_le.mpr hbpm), if_neg (by omega : ¬ tsBeats = 0)]
    rw [if_pos]
    constructor
    · rw [List.length_map, List.length_range]
      exact hnpos
    · rw [List.length_map]
      have h0m : (0 : ℕ) ∈ (List.range (max 1 ⌈duration * (bpm / 60)⌉).toNat).filter
          (fun i => i % tsBeats = 0) := by
        rw [List.mem_filter, List.mem_range]
        exact ⟨hnpos, by simp⟩
      exact List.length_pos.mpr (List.ne_nil_of_mem h0m)
  refine ⟨_, hkey, rfl, ?_, ?_, ?_, ?_⟩
  · simp only [List.length_map, List.length_range]
    omega
  · intro i hi
    simp only [List.length_map, List.length_range] at hi
    exact getD_map_range _ _ _ hi
  · rw [getD_map_range _ _ _ hnpos]
    norm_num
  · simp only [List.length_map, List.length_range]
    refine (List.map_congr_left ?_).symm
    intro i hi
    rw [List.mem_filter, List.mem_range] at hi
    rw [getD_map_range _ _ _ hi.1]

theorem calculateBeatPositions_spec_witness :
    (0 : ℚ) < 120 ∧ (0 : ℚ) ≤ 2 ∧ 1 ≤ 4 ∧
    (∃ bi, calculateBeatPositions 120 (some 2) 4 = some bi ∧
      bi.beatsPerBar = 4 ∧
      (bi.beatPositions.length : ℤ) = max 1 ⌈(2 : ℚ) * (120 / 60)⌉ ∧
      (∀ i < bi.beatPositions.length, bi.beatPositions.getD i 0 = (i : ℚ) * (60 / 120)) ∧
      bi.beatPositions.getD 0 0 = 0 ∧
      bi.barPositions = ((List.range bi.beatPositions.length).filter
          fun i => i % 4 = 0).map fun i => bi.beatPositions.getD i 0) := by
  refine ⟨by norm_num, by norm_num, by norm_num, ?_⟩
  exact (calculateBeatPositions_spec 120 2 4 (by norm_num) (by norm_num) (by norm_num)).1

end Arrange
